import Mathlib

/-!
Verification of `src/assets/interactive-enhancements.js` (AgroTech Solutions
website enhancements).  The JavaScript is shallowly embedded: JS strings are
`List Char`, DOM class lists are `List String`, DOM timers are explicit
records, and host APIs (`classList`, `split`, `replace`, `decodeURIComponent`,
`setTimeout`/`clearTimeout`) are modelled as Lean functions following the
ECMAScript / WHATWG semantics the browser supplies.
-/

/-! ### JS string primitives -/

/-- ECMAScript WhiteSpace and LineTerminator characters: the character class
`\s` used by the regexes in the file, and the set stripped by
`String.prototype.trim`. -/
def jsWhitespace (c : Char) : Bool :=
  c.toNat = 0x9 || c.toNat = 0xa || c.toNat = 0xb || c.toNat = 0xc ||
  c.toNat = 0xd || c.toNat = 0x20 || c.toNat = 0xa0 || c.toNat = 0x1680 ||
  (0x2000 ≤ c.toNat && c.toNat ≤ 0x200a) || c.toNat = 0x2028 ||
  c.toNat = 0x2029 || c.toNat = 0x202f || c.toNat = 0x205f ||
  c.toNat = 0x3000 || c.toNat = 0xfeff

/-- `String.prototype.trim`: strip leading and trailing whitespace. -/
def jsTrim (s : List Char) : List Char :=
  (((s.dropWhile jsWhitespace).reverse).dropWhile jsWhitespace).reverse

/-- `String.prototype.split` with a single-character separator (used as
`path.split('/')`): returns the list of chunks, one more chunk than there are
separators, empty chunks included. -/
def splitChar (sep : Char) : List Char → List (List Char)
  | [] => [[]]
  | c :: rest =>
    match splitChar sep rest with
    | [] => [[]]
    | chunk :: chunks =>
      if c = sep then [] :: chunk :: chunks else (c :: chunk) :: chunks

/-- `String.prototype.replace(pat, '')` with a plain-string pattern: removes
the first occurrence of `pat`, leaves the string unchanged when `pat` does
not occur. -/
def replaceFirst (pat : List Char) : List Char → List Char
  | [] => []
  | c :: rest =>
    if pat.isPrefixOf (c :: rest) then (c :: rest).drop pat.length
    else c :: replaceFirst pat rest

/-! ### DOM class lists (`DOMTokenList`) -/

/-- `classList.add c`: appends the token unless already present. -/
def addClass (c : String) (l : List String) : List String :=
  if c ∈ l then l else l ++ [c]

/-- `classList.remove c`: removes the token. -/
def removeClass (c : String) (l : List String) : List String :=
  l.filter (fun x => x != c)

/-- `classList.toggle c`: removes the token if present, adds it otherwise. -/
def toggleClass (c : String) (l : List String) : List String :=
  if c ∈ l then removeClass c l else addClass c l

theorem mem_addClass {a c : String} {l : List String} :
    a ∈ addClass c l ↔ a = c ∨ a ∈ l := by
  unfold addClass
  split
  · rename_i h
    constructor
    · exact fun ha => Or.inr ha
    · rintro (rfl | ha)
      · exact h
      · exact ha
  · simp [or_comm]

theorem mem_removeClass {a c : String} {l : List String} :
    a ∈ removeClass c l ↔ a ∈ l ∧ a ≠ c := by
  simp [removeClass, List.mem_filter]

theorem mem_toggleClass {a c : String} {l : List String} :
    a ∈ toggleClass c l ↔ (if c ∈ l then a ∈ l ∧ a ≠ c else a = c ∨ a ∈ l) := by
  unfold toggleClass
  split
  · exact mem_removeClass
  · exact mem_addClass

/-! ### DOM elements

A DOM element as the tab/menu code observes it: its `id`, its class list and
the two inline style properties the handlers mutate. -/

structure Elem where
  id : String
  classes : List String
  styleOpacity : String
  styleTransform : String
deriving Repr, DecidableEq

/-! ### C1 — DOMContentLoaded initialization order

The `DOMContentLoaded` handler (source lines 1288–1297) runs, for each of the
nine modules in the order written, `if (typeof M !== 'undefined') M.init()`.
All nine modules are `const`-declarations of the same IIFE (lines 111, 277,
451, 516, 618, 684, 1100, 1172, 1201), so every `typeof` guard is true. -/

inductive ModuleId
  | navigation | form | card | tab | button | scroll | image | performance | accessibility
deriving DecidableEq, Repr

/-- Every enhancement module is declared in the file, so its
`typeof M !== 'undefined'` guard holds. -/
def enhancementModuleDefined : ModuleId → Bool := fun _ => true

/-- The sequence of `init()` calls made by the `DOMContentLoaded` handler,
one guarded call per line, in source order. -/
def domReadyInitSequence : List ModuleId :=
  (if enhancementModuleDefined .navigation then [ModuleId.navigation] else [])
  ++ (if enhancementModuleDefined .form then [ModuleId.form] else [])
  ++ (if enhancementModuleDefined .card then [ModuleId.card] else [])
  ++ (if enhancementModuleDefined .tab then [ModuleId.tab] else [])
  ++ (if enhancementModuleDefined .button then [ModuleId.button] else [])
  ++ (if enhancementModuleDefined .scroll then [ModuleId.scroll] else [])
  ++ (if enhancementModuleDefined .image then [ModuleId.image] else [])
  ++ (if enhancementModuleDefined .performance then [ModuleId.performance] else [])
  ++ (if enhancementModuleDefined .accessibility then [ModuleId.accessibility] else [])

/-- C1: on DOMContentLoaded the nine enhancement modules are each initialized
exactly once, in the fixed hard-coded order navigation, form, card, tab,
button, scroll, image, performance, accessibility. -/
theorem domReady_init_order :
    domReadyInitSequence =
      [ModuleId.navigation, ModuleId.form, ModuleId.card, ModuleId.tab,
       ModuleId.button, ModuleId.scroll, ModuleId.image, ModuleId.performance,
       ModuleId.accessibility]
    ∧ ∀ m : ModuleId, domReadyInitSequence.count m = 1 := by
  refine ⟨by decide, fun m => ?_⟩
  cases m <;> decide

/-! ### C5 — mobile menu toggle

`NavigationEnhancement.setupMobileMenu` (lines 141–177): when both the
`.btn-ghost.lg:hidden` button and `#mobileMenu` exist, the click handler runs
`mobileMenu.classList.toggle('hidden')` and then sets slide-animation styles
depending on the resulting state.  (`e.stopPropagation()` only affects event
routing and is not modelled.) -/

/-- The body of the mobile-menu button click handler, acting on the
`#mobileMenu` element. -/
def mobileMenuClick (menu : Elem) : Elem :=
  let m := { menu with classes := toggleClass "hidden" menu.classes }
  if ¬ ("hidden" ∈ m.classes) then
    { m with styleTransform := "translateY(0)", styleOpacity := "1" }
  else
    { m with styleTransform := "translateY(-10px)", styleOpacity := "0" }

/-- C5: every click on the mobile menu button toggles membership of the
`hidden` class on the menu: the menu has `hidden` after the click iff it did
not have it before. -/
theorem mobileMenuClick_toggles_hidden (menu : Elem) :
    "hidden" ∈ (mobileMenuClick menu).classes ↔ ¬ ("hidden" ∈ menu.classes) := by
  have hcl : (mobileMenuClick menu).classes = toggleClass "hidden" menu.classes := by
    simp only [mobileMenuClick]
    split <;> rfl
  rw [hcl, mem_toggleClass]
  split
  · rename_i h
    simp [h]
  · rename_i h
    simp [h]

/-! ### C7 — cubic ease-in-out

`easeInOutCubic` (lines 949–954), over exact rational arithmetic.  The JS
statements `t /= d / 2` and `t -= 2` become the `let`-bindings `t1`, `t2`. -/

def easeInOutCubic (t b c d : ℚ) : ℚ :=
  let t1 := t / (d / 2)
  if t1 < 1 then c / 2 * (t1 * t1 * t1) + b
  else
    let t2 := t1 - 2
    c / 2 * (t2 * t2 * t2 + 2) + b

/-- C7: for positive duration `d`, `easeInOutCubic` returns `b` at `t = 0`,
`b + c` at `t = d`, `b + c/2` at `t = d/2`, and on the first half-interval it
is the cubic `c/2 * (2t/d)^3 + b`. -/
theorem easeInOutCubic_spec (b c d : ℚ) (hd : 0 < d) :
    easeInOutCubic 0 b c d = b
    ∧ easeInOutCubic d b c d = b + c
    ∧ easeInOutCubic (d / 2) b c d = b + c / 2
    ∧ ∀ t : ℚ, 0 ≤ t → t ≤ d / 2 →
        easeInOutCubic t b c d = c / 2 * (2 * t / d) ^ 3 + b := by
  have hd0 : d ≠ 0 := ne_of_gt hd
  have hd2 : d / 2 ≠ 0 := by positivity
  refine ⟨?_, ?_, ?_, ?_⟩
  · unfold easeInOutCubic
    rw [zero_div, if_pos (by norm_num)]
    ring
  · unfold easeInOutCubic
    have h2 : d / (d / 2) = 2 := by
      rw [div_div_eq_mul_div, mul_comm d 2, mul_div_assoc, div_self hd0, mul_one]
    rw [h2, if_neg (by norm_num)]
    ring
  · unfold easeInOutCubic
    rw [div_self hd2, if_neg (by norm_num)]
    ring
  · intro t ht0 ht1
    have heq : t / (d / 2) = 2 * t / d := by
      rw [div_div_eq_mul_div]
      ring
    have hle : 2 * t / d ≤ 1 := by
      rw [div_le_one hd]
      linarith
    unfold easeInOutCubic
    rw [heq]
    by_cases hlt : 2 * t / d < 1
    · rw [if_pos hlt]
      ring
    · rw [if_neg hlt]
      have h1 : 2 * t / d = 1 := le_antisymm hle (not_lt.mp hlt)
      rw [h1]
      norm_num

/-- Witness for C7 at `b = 0`, `c = 1`, `d = 2`, `t = d/2`. -/
theorem easeInOutCubic_spec_witness :
    (0 : ℚ) < 2 ∧ easeInOutCubic (2 / 2) 0 1 2 = 0 + 1 / 2 :=
  ⟨by norm_num, (easeInOutCubic_spec 0 1 2 (by norm_num)).2.2.1⟩

/-! ### Form validation (`FormEnhancement`, lines 277–448)

A form input field as `validateField` observes it: its string value, its
`type`, whether it carries the `required` attribute, its class list, and the
children of its parent element (where `showFieldError` inserts the message
element).  The `className` of an appended child is modelled as its token
list. -/

structure ErrChild where
  className : List String
  textContent : String
deriving Repr, DecidableEq

structure InputField where
  value : List Char
  type : String
  required : Bool
  classes : List String
  parentChildren : List ErrChild
deriving Repr, DecidableEq

/-- Does a child element match the CSS selector `.field-error`? -/
def isFieldErrorChild (ch : ErrChild) : Bool := "field-error" ∈ ch.className

/-- Remove the first element satisfying `p` (what
`querySelector('.field-error')` followed by `.remove()` does). -/
def removeFirstSuchThat (p : α → Bool) : List α → List α
  | [] => []
  | x :: xs => if p x then xs else x :: removeFirstSuchThat p xs

/-- `FormEnhancement.showFieldError` (lines 405–417): remove the existing
`.field-error` child, then append a new error-message element with class
`field-error text-error text-sm mt-1` and the message as text. -/
def showFieldError (children : List ErrChild) (message : String) : List ErrChild :=
  removeFirstSuchThat isFieldErrorChild children
    ++ [{ className := ["field-error", "text-error", "text-sm", "mt-1"],
          textContent := message }]

/-- The email regex `/^[^\s@]+@[^\s@]+\.[^\s@]+$/` (line 379).  The string
must contain exactly one `@`; the part before it is a nonempty run of
non-whitespace characters; the part after it is a nonempty run of
non-whitespace characters containing a `.` at an interior position (so that
it decomposes as `[^\s@]+ "." [^\s@]+`). -/
def emailTest (s : List Char) : Bool :=
  match splitChar '@' s with
  | [a, r] =>
    !a.isEmpty && a.all (fun c => !jsWhitespace c) &&
    !r.isEmpty && r.all (fun c => !jsWhitespace c) &&
    ((r.drop 1).dropLast.contains '.')
  | _ => false

def isDigitChar (c : Char) : Bool := '0' ≤ c && c ≤ '9'

/-- The phone regex `/^[\+]?[1-9][\d]{0,15}$/` (line 389): an optional `+`,
a nonzero digit, then up to fifteen digits. -/
def phoneTest (s : List Char) : Bool :=
  let s' := match s with
    | '+' :: r => r
    | r => r
  match s' with
  | [] => false
  | c :: rest => ('1' ≤ c && c ≤ '9') && rest.length ≤ 15 && rest.all isDigitChar

/-- `FormEnhancement.validateField` (lines 361–403), invoked with the input
element as `this`: trims the value, clears the `error` and `success` classes,
then runs the required/email/phone checks, adding `error` plus a field-error
message on failure and `success` on non-empty validated values.  Returns the
JS function's boolean result together with the updated field. -/
def validateField (f : InputField) : Bool × InputField :=
  let value := jsTrim f.value
  let f1 := { f with classes := removeClass "success" (removeClass "error" f.classes) }
  if f.required && value.isEmpty then
    (false, { f1 with classes := addClass "error" f1.classes,
                      parentChildren := showFieldError f1.parentChildren
                        "This field is required" })
  else if f.type == "email" && !value.isEmpty && !emailTest value then
    (false, { f1 with classes := addClass "error" f1.classes,
                      parentChildren := showFieldError f1.parentChildren
                        "Please enter a valid email address" })
  else if f.type == "tel" && !value.isEmpty
      && !phoneTest (value.filter (fun c => !jsWhitespace c)) then
    (false, { f1 with classes := addClass "error" f1.classes,
                      parentChildren := showFieldError f1.parentChildren
                        "Please enter a valid phone number" })
  else if !value.isEmpty then
    (true, { f1 with classes := addClass "success" f1.classes })
  else
    (true, f1)

/-- C8: after any call to `validateField`, the field never carries both
`error` and `success`; it carries `error` iff the call returned `false`, and
`success` iff the call returned `true` with a non-empty trimmed value. -/
theorem validateField_classes (f : InputField) :
    ¬ ("error" ∈ (validateField f).2.classes ∧ "success" ∈ (validateField f).2.classes)
    ∧ ("error" ∈ (validateField f).2.classes ↔ (validateField f).1 = false)
    ∧ ("success" ∈ (validateField f).2.classes ↔
        (validateField f).1 = true ∧ jsTrim f.value ≠ []) := by
  have hne : ("error" : String) ≠ "success" := by decide
  have hne' : ("success" : String) ≠ "error" := by decide
  simp only [validateField]
  split
  · simp [mem_addClass, mem_removeClass, hne, hne']
  · split
    · simp [mem_addClass, mem_removeClass, hne, hne']
    · split
      · simp [mem_addClass, mem_removeClass, hne, hne']
      · split
        · rename_i hval
          have hval' : jsTrim f.value ≠ [] := by simpa using hval
          simp [mem_addClass, mem_removeClass, hne, hne', hval']
        · rename_i hval
          have hval' : jsTrim f.value = [] := by simpa using hval
          simp [mem_removeClass, hne, hne', hval']

/-! ### C6 — validation failures are surfaced to the user

`validateField` calls `showFieldError`, which appends a visible
`.field-error` message element to the field's parent (lines 405–417).  The
claim that no validation appends user-visible error content is therefore
false; the counterexample below evaluates `validateField` on a required,
empty field. -/

def requiredEmptyField : InputField :=
  { value := [], type := "text", required := true, classes := [], parentChildren := [] }

/-- C6 counterexample: calling `validateField` on a required empty field
appends a user-visible `.field-error` element to the document, refuting the
claim that no validation or event handler appends error content. -/
theorem validateField_appends_error_element :
    ((validateField requiredEmptyField).2.parentChildren.any isFieldErrorChild) = true := by
  decide

theorem countP_removeFirstSuchThat (p : α → Bool) (l : List α) :
    l.countP p ≤ 1 → (removeFirstSuchThat p l).countP p = 0 := by
  induction l with
  | nil => intro _; rfl
  | cons x xs ih =>
    intro h
    by_cases hx : p x
    · rw [List.countP_cons_of_pos _ _ hx] at h
      simp only [removeFirstSuchThat, if_pos hx]
      omega
    · rw [List.countP_cons_of_neg _ _ hx] at h
      simp only [removeFirstSuchThat, if_neg hx]
      rw [List.countP_cons_of_neg _ _ hx]
      exact ih h

/-- C6 amended: `FormEnhancement.validateField` does surface failures to the
user: whenever it returns `false` it appends a `.field-error` message element
to the field's parent, after removing any existing one — so afterwards the
parent holds exactly one such element (given it held at most one before). -/
theorem validateField_surfaces_error (f : InputField)
    (hcount : f.parentChildren.countP isFieldErrorChild ≤ 1) :
    (validateField f).1 = false →
    (validateField f).2.parentChildren.countP isFieldErrorChild = 1 := by
  have hkey : ∀ msg, (showFieldError f.parentChildren msg).countP isFieldErrorChild = 1 := by
    intro msg
    unfold showFieldError
    rw [List.countP_append, countP_removeFirstSuchThat _ _ hcount]
    rfl
  simp only [validateField]
  split
  · intro _
    exact hkey _
  · split
    · intro _
      exact hkey _
    · split
      · intro _
        exact hkey _
      · split
        · intro hfl
          simp at hfl
        · intro hfl
          simp at hfl

/-- Witness for the amended C6 at the required empty field. -/
theorem validateField_surfaces_error_witness :
    (validateField requiredEmptyField).2.parentChildren.countP isFieldErrorChild = 1 :=
  validateField_surfaces_error requiredEmptyField (by decide) (by decide)

/-! ### C2 — the registered validation callbacks throw

`FormEnhancement.setupFormValidation` (lines 284–310) registers

    input.addEventListener('blur', function() { this.validateField(); });

Inside the callback `this` is the DOM input element.  WHATWG
`HTMLInputElement` defines no property named `validateField`, and the script
never assigns one to an element (`validateField` is a property of the
`FormEnhancement` object literal).  In JavaScript, calling a missing property
throws `TypeError`.  Property access followed by invocation is modelled by a
lookup in the element's table of callable properties. -/

inductive JSError
  | typeError
  | uriError
deriving DecidableEq, Repr

/-- Body of the registered blur callback: look up `validateField` on `this`
(the input element) and invoke it, per JS semantics throwing `TypeError` when
the property is absent. -/
def blurHandler (props : List (String × (InputField → Bool × InputField)))
    (this : InputField) : Except JSError (Bool × InputField) :=
  match props.lookup "validateField" with
  | some f => Except.ok (f this)
  | none => Except.error JSError.typeError

/-- C2 is refuted by the code: for any input element whose callable
properties lack `validateField` — which is every DOM input, since neither the
DOM nor this script defines one on elements — the blur callback throws
`TypeError` instead of validating, contradicting the claim that no registered
callback ever throws. -/
theorem blurHandler_throws
    (props : List (String × (InputField → Bool × InputField)))
    (this : InputField)
    (h : props.lookup "validateField" = none) :
    blurHandler props this = Except.error JSError.typeError := by
  unfold blurHandler
  rw [h]

def sampleInputField : InputField :=
  { value := ['a'], type := "text", required := false, classes := [], parentChildren := [] }

/-- Witness for C2's theorem at a concrete input element with no
script-assigned properties. -/
theorem blurHandler_throws_witness :
    blurHandler [] sampleInputField = Except.error JSError.typeError :=
  blurHandler_throws [] sampleInputField rfl

/-! ### C3, C4 — `Utils.debounce` (lines 52–62)

The wrapper produced by `Utils.debounce(func, wait)` is run against an
explicit model of the browser timer host: a pool of armed timers (id,
deadline, captured arguments), the closure variable `timeout` holding the id
returned by the last `setTimeout`, and the accumulated list of `func`
invocations (time, arguments).  Between events the host fires every timer
whose deadline has passed, earliest first; firing a timer removes it from the
pool and runs `later`, which per the source first does
`clearTimeout(timeout)` and then calls `func(...args)`.  A wrapper call first
does `clearTimeout(timeout)` and then arms a fresh timer `wait` after the
call time. -/

structure TimerRec (α : Type) where
  id : Nat
  deadline : Nat
  args : α
deriving Repr, DecidableEq

structure DebounceState (α : Type) where
  pool : List (TimerRec α)
  timeoutVar : Option Nat
  fires : List (Nat × α)
  nextId : Nat
deriving Repr, DecidableEq

/-- `clearTimeout(timeout)`: remove the timer with the stored id (no-op when
`timeout` is still undefined or the timer already fired). -/
def clearTimeoutOp (pool : List (TimerRec α)) : Option Nat → List (TimerRec α)
  | none => pool
  | some i => pool.filter (fun tr => tr.id != i)

/-- The earliest timer due strictly before `now` (`none` = end of run, when
every pending timer is due). -/
def earliestDue (pool : List (TimerRec α)) (now : Option Nat) : Option (TimerRec α) :=
  let due := match now with
    | none => pool
    | some t => pool.filter (fun tr => tr.deadline < t)
  due.foldl (fun acc tr =>
    match acc with
    | none => some tr
    | some b => if tr.deadline < b.deadline then some tr else some b) none

/-- A timer fires: the host removes it from the pool, then `later` runs
`clearTimeout(timeout); func(...args)`. -/
def fireOne (s : DebounceState α) (tr : TimerRec α) : DebounceState α :=
  let pool1 := s.pool.filter (fun t => t.id != tr.id)
  let pool2 := clearTimeoutOp pool1 s.timeoutVar
  { s with pool := pool2, fires := s.fires ++ [(tr.deadline, tr.args)] }

def fireDueAux : Nat → DebounceState α → Option Nat → DebounceState α
  | 0, s, _ => s
  | fuel + 1, s, now =>
    match earliestDue s.pool now with
    | none => s
    | some tr => fireDueAux fuel (fireOne s tr) now

/-- Fire every due timer, earliest first. -/
def fireDueAll (s : DebounceState α) (now : Option Nat) : DebounceState α :=
  fireDueAux s.pool.length s now

/-- One call of the wrapper `executedFunction` at time `t` with arguments
`a`: the event loop first fires what was due, then the wrapper body runs
`clearTimeout(timeout); timeout = setTimeout(later, wait)`. -/
def wrapperCall (wait : Nat) (s : DebounceState α) (t : Nat) (a : α) : DebounceState α :=
  let s1 := fireDueAll s (some t)
  let pool := clearTimeoutOp s1.pool s1.timeoutVar
  { pool := pool ++ [⟨s1.nextId, t + wait, a⟩],
    timeoutVar := some s1.nextId,
    fires := s1.fires,
    nextId := s1.nextId + 1 }

def debounceInit : DebounceState α := ⟨[], none, [], 0⟩

def debounceSteps (wait : Nat) (s : DebounceState α) (calls : List (Nat × α)) : DebounceState α :=
  calls.foldl (fun s p => wrapperCall wait s p.1 p.2) s

/-- Run the debounced wrapper over a whole sequence of timed calls, flushing
the pending timer at the end. -/
def debounceRun (wait : Nat) (calls : List (Nat × α)) : DebounceState α :=
  fireDueAll (debounceSteps wait debounceInit calls) none

/-- Trailing-edge debounce as the claim states it: `func` runs `wait` after a
call exactly when no further call arrives within the `wait` window, with that
call's arguments. -/
def trailingSpec (wait : Nat) : List (Nat × α) → List (Nat × α)
  | [] => []
  | (t, a) :: rest =>
    match rest with
    | [] => [(t + wait, a)]
    | (t2, _) :: _ => (if t + wait < t2 then [(t + wait, a)] else []) ++ trailingSpec wait rest

theorem clearTimeoutOp_nil (v : Option Nat) : clearTimeoutOp ([] : List (TimerRec α)) v = [] := by
  cases v <;> rfl

theorem fireDueAll_nil (v : Option Nat) (fs : List (Nat × α)) (nid : Nat) (now : Option Nat) :
    fireDueAll (⟨[], v, fs, nid⟩ : DebounceState α) now = ⟨[], v, fs, nid⟩ := rfl

theorem fireDueAll_single_some (id d : Nat) (a : α) (fs : List (Nat × α)) (nid t : Nat) :
    fireDueAll (⟨[⟨id, d, a⟩], some id, fs, nid⟩ : DebounceState α) (some t) =
      if d < t then ⟨[], some id, fs ++ [(d, a)], nid⟩
      else ⟨[⟨id, d, a⟩], some id, fs, nid⟩ := by
  by_cases h : d < t
  · simp [fireDueAll, fireDueAux, earliestDue, fireOne, clearTimeoutOp, h]
  · simp [fireDueAll, fireDueAux, earliestDue, h]

theorem fireDueAll_single_none (id d : Nat) (a : α) (fs : List (Nat × α)) (nid : Nat) :
    fireDueAll (⟨[⟨id, d, a⟩], some id, fs, nid⟩ : DebounceState α) none =
      ⟨[], some id, fs ++ [(d, a)], nid⟩ := by
  simp [fireDueAll, fireDueAux, earliestDue, fireOne, clearTimeoutOp]

theorem wrapperCall_init (wait t : Nat) (a : α) :
    wrapperCall wait (debounceInit : DebounceState α) t a =
      ⟨[⟨0, t + wait, a⟩], some 0, [], 1⟩ := rfl

theorem wrapperCall_single (wait id d : Nat) (a : α) (fs : List (Nat × α)) (nid t : Nat) (b : α) :
    wrapperCall wait (⟨[⟨id, d, a⟩], some id, fs, nid⟩ : DebounceState α) t b =
      ⟨[⟨nid, t + wait, b⟩], some nid, fs ++ (if d < t then [(d, a)] else []), nid + 1⟩ := by
  by_cases h : d < t
  · simp only [wrapperCall, fireDueAll_single_some, if_pos h]
    simp [clearTimeoutOp]
  · simp only [wrapperCall, fireDueAll_single_some, if_neg h]
    simp [clearTimeoutOp]

/-- Reference shape of the fire list starting from a state with exactly one
armed timer (deadline `d`, arguments `a`). -/
def specAux (wait : Nat) : Nat → α → List (Nat × α) → List (Nat × α)
  | d, a, [] => [(d, a)]
  | d, a, (t, b) :: rest => (if d < t then [(d, a)] else []) ++ specAux wait (t + wait) b rest

theorem debounceSteps_cState (wait : Nat) (calls : List (Nat × α)) :
    ∀ (id d : Nat) (a : α) (fs : List (Nat × α)) (nid : Nat),
    (fireDueAll (debounceSteps wait (⟨[⟨id, d, a⟩], some id, fs, nid⟩ : DebounceState α) calls) none).fires
      = fs ++ specAux wait d a calls := by
  induction calls with
  | nil =>
    intro id d a fs nid
    simp [debounceSteps, fireDueAll_single_none, specAux]
  | cons p rest ih =>
    intro id d a fs nid
    obtain ⟨t, b⟩ := p
    have hstep : debounceSteps wait (⟨[⟨id, d, a⟩], some id, fs, nid⟩ : DebounceState α) ((t, b) :: rest)
        = debounceSteps wait (⟨[⟨nid, t + wait, b⟩], some nid,
            fs ++ (if d < t then [(d, a)] else []), nid + 1⟩) rest := by
      simp [debounceSteps, wrapperCall_single]
    rw [hstep, ih]
    simp [specAux]

theorem specAux_trailing (wait : Nat) (rest : List (Nat × α)) :
    ∀ (t : Nat) (a : α),
    specAux wait (t + wait) a rest = trailingSpec wait ((t, a) :: rest) := by
  induction rest with
  | nil => intro t a; rfl
  | cons q rest ih =>
    intro t a
    obtain ⟨t2, b⟩ := q
    show (if t + wait < t2 then [(t + wait, a)] else []) ++ specAux wait (t2 + wait) b rest = _
    rw [ih]
    rfl

/-- C3: for every (time-ordered) sequence of calls to the debounced wrapper,
the executed `func` invocations are exactly the trailing-edge ones: `func`
runs `wait` after a call precisely when no further call arrives within the
window, with the arguments of that most recent call, at most once per such
quiescent period. -/
theorem debounce_trailing_edge (wait : Nat) (calls : List (Nat × α))
    (hmono : List.Chain' (fun p q : Nat × α => p.1 < q.1) calls) :
    (debounceRun wait calls).fires = trailingSpec wait calls := by
  cases calls with
  | nil => rfl
  | cons p rest =>
    obtain ⟨t, a⟩ := p
    unfold debounceRun
    have h1 : debounceSteps wait (debounceInit : DebounceState α) ((t, a) :: rest)
        = debounceSteps wait (⟨[⟨0, t + wait, a⟩], some 0, [], 1⟩) rest := by
      simp [debounceSteps, wrapperCall_init]
    rw [h1, debounceSteps_cState, specAux_trailing]
    rfl

def debounceCalls0 : List (Nat × Nat) := [(0, 1), (3, 2), (20, 3)]

/-- Witness for C3: three calls with `wait = 10`; the call at time 3
supersedes the one at time 0, so `func` runs at 13 with the second call's
arguments and at 30 with the third's. -/
theorem debounce_trailing_edge_witness :
    (debounceRun 10 debounceCalls0).fires = trailingSpec 10 debounceCalls0 ∧
    trailingSpec 10 debounceCalls0 = [(13, 2), (30, 3)] :=
  ⟨debounce_trailing_edge 10 debounceCalls0
    (by norm_num [debounceCalls0, List.chain'_cons]), by decide⟩

/-- Invariant for C4: the wrapper's timer pool holds at most one timer, and
its id is the one stored in the closure variable `timeout`. -/
def debouncePoolInv (s : DebounceState α) : Prop :=
  s.pool = [] ∨ ∃ tr : TimerRec α, s.pool = [tr] ∧ s.timeoutVar = some tr.id

theorem wrapperCall_pool_nil (wait : Nat) (v : Option Nat) (fs : List (Nat × α)) (nid t : Nat) (a : α) :
    wrapperCall wait (⟨[], v, fs, nid⟩ : DebounceState α) t a =
      ⟨[⟨nid, t + wait, a⟩], some nid, fs, nid + 1⟩ := by
  simp only [wrapperCall, fireDueAll_nil]
  simp [clearTimeoutOp_nil]

theorem debouncePoolInv_wrapperCall (wait : Nat) (s : DebounceState α) (t : Nat) (a : α)
    (h : debouncePoolInv s) : debouncePoolInv (wrapperCall wait s t a) := by
  obtain ⟨pool, v, fs, nid⟩ := s
  rcases h with h | ⟨tr, hpool, hvar⟩
  · simp only at h
    subst h
    rw [wrapperCall_pool_nil]
    exact Or.inr ⟨⟨nid, t + wait, a⟩, rfl, rfl⟩
  · simp only at hpool hvar
    subst hpool
    subst hvar
    obtain ⟨tid, td, ta⟩ := tr
    rw [wrapperCall_single]
    exact Or.inr ⟨⟨nid, t + wait, a⟩, rfl, rfl⟩

theorem debouncePoolInv_steps (wait : Nat) (calls : List (Nat × α)) :
    ∀ s : DebounceState α, debouncePoolInv s → debouncePoolInv (debounceSteps wait s calls) := by
  induction calls with
  | nil => intro s h; exact h
  | cons p rest ih =>
    intro s h
    exact ih _ (debouncePoolInv_wrapperCall wait s p.1 p.2 h)

/-- C4: every wrapper invocation clears the pending timer before arming a new
one (that is literally what `wrapperCall` does), so after any prefix of the
call sequence at most one timer is pending for the wrapper. -/
theorem debounce_single_pending_timer (wait : Nat) (calls : List (Nat × α)) (n : Nat) :
    (debounceSteps wait (debounceInit : DebounceState α) (calls.take n)).pool.length ≤ 1 := by
  have h := debouncePoolInv_steps wait (calls.take n) debounceInit (Or.inl rfl)
  rcases h with h | ⟨tr, hpool, _⟩
  · rw [h]
    simp
  · rw [hpool]
    simp

/-! ### C9 — `TabEnhancement.switchTab` (lines 538–572)

The document is a list of elements (list position = document order, so object
identity is list index).  `switchTab` performs, in source order: add `hidden`
and remove `active` on every `.tab-content` element; `getElementById(tabId +
'-content')` and, when found, remove `hidden`, add `active` and set the
fade-in start styles on it; remove `active` from every
`.irrigation-tab, .tab-button` element; add `active` to the clicked tab.
(`updateTabIndicator` and the queued `setTimeout` callback only write inline
styles of other elements from layout geometry and do not touch any class
list.) -/

def isTabContent (e : Elem) : Prop := "tab-content" ∈ e.classes

instance (e : Elem) : Decidable (isTabContent e) :=
  inferInstanceAs (Decidable ("tab-content" ∈ e.classes))

def isTabButton (e : Elem) : Prop :=
  "irrigation-tab" ∈ e.classes ∨ "tab-button" ∈ e.classes

instance (e : Elem) : Decidable (isTabButton e) :=
  inferInstanceAs (Decidable ("irrigation-tab" ∈ e.classes ∨ "tab-button" ∈ e.classes))

/-- `content.classList.add('hidden'); content.classList.remove('active')`,
applied to the `.tab-content` matches. -/
def hideContent (e : Elem) : Elem :=
  if isTabContent e then
    { e with classes := removeClass "active" (addClass "hidden" e.classes) }
  else e

/-- The selected content pane: remove `hidden`, add `active`, set the fade-in
start styles. -/
def showSelected (e : Elem) : Elem :=
  { e with classes := addClass "active" (removeClass "hidden" e.classes),
           styleOpacity := "0", styleTransform := "translateY(10px)" }

/-- `tab.classList.remove('active')`, applied to the tab-button matches. -/
def deactivateTab (e : Elem) : Elem :=
  if isTabButton e then { e with classes := removeClass "active" e.classes } else e

/-- `clickedTab.classList.add('active')`. -/
def activateTab (e : Elem) : Elem :=
  { e with classes := addClass "active" e.classes }

/-- First index satisfying the predicate (what `getElementById` does: the
first element in document order with the given id). -/
def findIdxFrom (p : α → Bool) : List α → Option Nat
  | [] => none
  | x :: xs => if p x then some 0 else (findIdxFrom p xs).map (· + 1)

def getElementByIdIdx (doc : List Elem) (s : String) : Option Nat :=
  findIdxFrom (fun e => e.id == s) doc

/-- In-place update of the element at an index (DOM mutation of one node). -/
def modifyAt (l : List α) (n : Nat) (f : α → α) : List α :=
  match l, n with
  | [], _ => []
  | x :: xs, 0 => f x :: xs
  | x :: xs, n + 1 => x :: modifyAt xs n f

/-- `TabEnhancement.switchTab(tabId, clicked)` on the whole document. -/
def switchTab (doc : List Elem) (tabId : String) (clicked : Option Nat) : List Elem :=
  let d1 := doc.map hideContent
  let d2 := match findIdxFrom (fun e => e.id == tabId ++ "-content") d1 with
    | some j => modifyAt d1 j showSelected
    | none => d1
  let d3 := d2.map deactivateTab
  match clicked with
  | some k => modifyAt d3 k activateTab
  | none => d3

theorem modifyAt_length (l : List α) (n : Nat) (f : α → α) :
    (modifyAt l n f).length = l.length := by
  induction l generalizing n with
  | nil => rfl
  | cons x xs ih =>
    cases n with
    | zero => rfl
    | succ m => simp [modifyAt, ih]

theorem getD_modifyAt (l : List α) (n : Nat) (f : α → α) (i : Nat) (d0 : α)
    (hi : i < l.length) :
    (modifyAt l n f).getD i d0 = if i = n then f (l.getD i d0) else l.getD i d0 := by
  induction l generalizing n i with
  | nil => simp at hi
  | cons x xs ih =>
    cases n with
    | zero =>
      cases i with
      | zero => simp [modifyAt]
      | succ j => simp [modifyAt]
    | succ m =>
      cases i with
      | zero => simp [modifyAt]
      | succ j =>
        simp only [modifyAt, List.getD_cons_succ]
        rw [ih m j (by simpa using hi)]
        by_cases hjm : j = m
        · simp [hjm]
        · have hsm : ¬ (j + 1 = m + 1) := fun h => hjm (Nat.succ.inj h)
          simp [hjm, hsm]

theorem getD_map (f : α → β) (l : List α) (i : Nat) (d0 : β) (d1 : α)
    (hi : i < l.length) :
    (l.map f).getD i d0 = f (l.getD i d1) := by
  induction l generalizing i with
  | nil => simp at hi
  | cons x xs ih =>
    cases i with
    | zero => simp
    | succ j =>
      simp only [List.map_cons, List.getD_cons_succ]
      exact ih j (by simpa using hi)

theorem findIdxFrom_map (p : β → Bool) (f : α → β) (l : List α) :
    findIdxFrom p (l.map f) = findIdxFrom (fun a => p (f a)) l := by
  induction l with
  | nil => rfl
  | cons x xs ih => simp [findIdxFrom, ih]

theorem hideContent_id (e : Elem) : (hideContent e).id = e.id := by
  unfold hideContent
  split <;> rfl

theorem byId_map_hideContent (doc : List Elem) (s : String) :
    getElementByIdIdx (doc.map hideContent) s = getElementByIdIdx doc s := by
  unfold getElementByIdIdx
  rw [findIdxFrom_map]
  congr 1
  funext e
  rw [hideContent_id]

def defaultElem : Elem := ⟨"", [], "", ""⟩

/-- What `switchTab` does to one element, as a function of whether that
element is the selected content pane (`selHit`) and whether it is the clicked
tab (`clickHit`). -/
def switchTabAtElem (selHit : Prop) [Decidable selHit] (clickHit : Prop)
    [Decidable clickHit] (e : Elem) : Elem :=
  let e1 := hideContent e
  let e2 := if selHit then showSelected e1 else e1
  let e3 := deactivateTab e2
  if clickHit then activateTab e3 else e3

theorem switchTab_getD (doc : List Elem) (tabId : String) (k i : Nat)
    (hi : i < doc.length) :
    (switchTab doc tabId (some k)).getD i defaultElem
      = switchTabAtElem (getElementByIdIdx doc (tabId ++ "-content") = some i) (i = k)
          (doc.getD i defaultElem) := by
  have hmapHide : i < (doc.map hideContent).length := by simpa using hi
  simp only [switchTab]
  cases hj : findIdxFrom (fun e => e.id == tabId ++ "-content") (doc.map hideContent) with
  | none =>
    have hcond : getElementByIdIdx doc (tabId ++ "-content") = none := by
      rw [← byId_map_hideContent]
      exact hj
    rw [getD_modifyAt _ k _ i _ (by simpa using hi)]
    rw [getD_map deactivateTab _ i defaultElem defaultElem hmapHide]
    rw [getD_map hideContent _ i defaultElem defaultElem hi]
    simp [switchTabAtElem, hcond]
  | some j =>
    have hcond : getElementByIdIdx doc (tabId ++ "-content") = some j := by
      rw [← byId_map_hideContent]
      exact hj
    rw [getD_modifyAt _ k _ i _ (by simp [modifyAt_length, hi])]
    rw [getD_map deactivateTab _ i defaultElem defaultElem (by simp [modifyAt_length, hi])]
    rw [getD_modifyAt _ j _ i _ hmapHide]
    rw [getD_map hideContent _ i defaultElem defaultElem hi]
    simp only [switchTabAtElem, hcond]
    by_cases hij : i = j
    · subst hij
      simp
    · have hji : ¬ (some j = some i) := fun h => hij (Option.some.inj h).symm
      simp [hij, hji]

theorem active_notMem_deactivateTab (e2 : Elem) (hbt : isTabButton (deactivateTab e2)) :
    "active" ∉ (deactivateTab e2).classes := by
  unfold deactivateTab at hbt ⊢
  by_cases htb : isTabButton e2
  · rw [if_pos htb]
    simp [mem_removeClass]
  · rw [if_neg htb] at hbt
    exact absurd hbt htb

theorem switchTabAtElem_active (sel clk : Prop) [Decidable sel] [Decidable clk]
    (e : Elem) (hbt : isTabButton (switchTabAtElem sel clk e)) :
    "active" ∈ (switchTabAtElem sel clk e).classes ↔ clk := by
  simp only [switchTabAtElem] at hbt ⊢
  by_cases hc : clk
  · rw [if_pos hc] at hbt ⊢
    simp [activateTab, mem_addClass, hc]
  · rw [if_neg hc] at hbt ⊢
    have h := active_notMem_deactivateTab _ hbt
    simp [h, hc]

theorem isTabContent_hideContent (e : Elem) :
    isTabContent (hideContent e) ↔ isTabContent e := by
  unfold hideContent
  split
  · simp [isTabContent, mem_removeClass, mem_addClass]
  · exact Iff.rfl

theorem isTabContent_showSelected (e : Elem) :
    isTabContent (showSelected e) ↔ isTabContent e := by
  simp [showSelected, isTabContent, mem_removeClass, mem_addClass]

theorem isTabContent_deactivateTab (e : Elem) :
    isTabContent (deactivateTab e) ↔ isTabContent e := by
  unfold deactivateTab
  split
  · simp [isTabContent, mem_removeClass]
  · exact Iff.rfl

theorem isTabContent_activateTab (e : Elem) :
    isTabContent (activateTab e) ↔ isTabContent e := by
  simp [activateTab, isTabContent, mem_addClass]

theorem isTabContent_switchTabAtElem (sel clk : Prop) [Decidable sel] [Decidable clk]
    (e : Elem) :
    isTabContent (switchTabAtElem sel clk e) ↔ isTabContent e := by
  simp only [switchTabAtElem]
  by_cases hs : sel <;> by_cases hc : clk <;>
    simp [hs, hc, isTabContent_hideContent, isTabContent_showSelected,
      isTabContent_deactivateTab, isTabContent_activateTab]

theorem mem_hidden_deactivateTab (x : Elem) :
    "hidden" ∈ (deactivateTab x).classes ↔ "hidden" ∈ x.classes := by
  unfold deactivateTab
  split
  · simp [mem_removeClass]
  · exact Iff.rfl

theorem mem_hidden_activateTab (x : Elem) :
    "hidden" ∈ (activateTab x).classes ↔ "hidden" ∈ x.classes := by
  simp [activateTab, mem_addClass]

theorem switchTabAtElem_hidden (sel clk : Prop) [Decidable sel] [Decidable clk]
    (e : Elem) (htc : isTabContent e) :
    ("hidden" ∉ (switchTabAtElem sel clk e).classes ↔ sel) := by
  simp only [switchTabAtElem]
  have hmem1 : "hidden" ∈ (hideContent e).classes := by
    unfold hideContent
    rw [if_pos htc]
    simp [mem_removeClass, mem_addClass]
  by_cases hs : sel
  · rw [if_pos hs]
    have h2 : "hidden" ∉ (showSelected (hideContent e)).classes := by
      simp [showSelected, mem_addClass, mem_removeClass]
    by_cases hc : clk
    · rw [if_pos hc]
      simp [mem_hidden_activateTab, mem_hidden_deactivateTab, h2, hs]
    · rw [if_neg hc]
      simp [mem_hidden_deactivateTab, h2, hs]
  · rw [if_neg hs]
    by_cases hc : clk
    · rw [if_pos hc]
      simp [mem_hidden_activateTab, mem_hidden_deactivateTab, hmem1, hs]
    · rw [if_neg hc]
      simp [mem_hidden_deactivateTab, hmem1, hs]

/-- C9: after `switchTab(tabId, clickedTab)` with a clicked tab (index `k`,
an element matching `.irrigation-tab, .tab-button`), the clicked tab is the
only element matching that selector carrying `active`, and among the
`.tab-content` elements exactly the one `getElementById(tabId + '-content')`
found (when it exists) lacks `hidden` while all others have it. -/
theorem switchTab_spec (doc : List Elem) (tabId : String) (k : Nat)
    (hk : k < doc.length) (hbtn : isTabButton (doc.getD k defaultElem)) :
    (∀ i, i < doc.length →
        isTabButton ((switchTab doc tabId (some k)).getD i defaultElem) →
        ("active" ∈ ((switchTab doc tabId (some k)).getD i defaultElem).classes ↔ i = k))
    ∧ (∀ i, i < doc.length →
        isTabContent ((switchTab doc tabId (some k)).getD i defaultElem) →
        ("hidden" ∉ ((switchTab doc tabId (some k)).getD i defaultElem).classes ↔
          getElementByIdIdx doc (tabId ++ "-content") = some i)) := by
  constructor
  · intro i hi hbt
    rw [switchTab_getD doc tabId k i hi] at hbt ⊢
    exact switchTabAtElem_active _ _ _ hbt
  · intro i hi htc
    rw [switchTab_getD doc tabId k i hi] at htc ⊢
    exact switchTabAtElem_hidden _ _ _ ((isTabContent_switchTabAtElem _ _ _).mp htc)

def tabDoc0 : List Elem :=
  [ { id := "t1", classes := ["irrigation-tab", "active"], styleOpacity := "", styleTransform := "" },
    { id := "t2", classes := ["tab-button"], styleOpacity := "", styleTransform := "" },
    { id := "a-content", classes := ["tab-content"], styleOpacity := "", styleTransform := "" },
    { id := "b-content", classes := ["tab-content", "hidden"], styleOpacity := "", styleTransform := "" } ]

/-- Witness for C9: a four-element document — after switching to tab "b" by
clicking the second tab, that tab is active and the pane with id `b-content`
is unhidden. -/
theorem switchTab_spec_witness :
    ("active" ∈ ((switchTab tabDoc0 "b" (some 1)).getD 1 defaultElem).classes ↔ 1 = 1)
    ∧ ("hidden" ∉ ((switchTab tabDoc0 "b" (some 1)).getD 3 defaultElem).classes ↔
        getElementByIdIdx tabDoc0 ("b" ++ "-content") = some 3) :=
  ⟨(switchTab_spec tabDoc0 "b" 1 (by decide) (by decide)).1 1 (by decide) (by decide),
   (switchTab_spec tabDoc0 "b" 1 (by decide) (by decide)).2 3 (by decide) (by decide)⟩

/-! ### C10 — `Utils.getCurrentPageName` (lines 20–27)

`path.split('/').pop()` is the last chunk of `splitChar '/'` (the split of a
string is never empty, so `pop` is total); `.replace('.html', '')` removes
the first occurrence; `|| 'homepage'` substitutes the default exactly when
the result is the empty string; `decodeURIComponent` percent-decodes per
ECMA-262 (UTF-8 strict), throwing `URIError` on a malformed escape — the
model below implements that host function over byte sequences with fuel
bounded by the string length. -/

def hexVal (c : Char) : Option Nat :=
  if '0' ≤ c ∧ c ≤ '9' then some (c.toNat - '0'.toNat)
  else if 'a' ≤ c ∧ c ≤ 'f' then some (c.toNat - 'a'.toNat + 10)
  else if 'A' ≤ c ∧ c ≤ 'F' then some (c.toNat - 'A'.toNat + 10)
  else none

/-- Read one `%HH` escape, returning the byte and the rest of the input. -/
def percentByte : List Char → Option (Nat × List Char)
  | '%' :: h1 :: h2 :: rest =>
    match hexVal h1, hexVal h2 with
    | some a, some b => some (16 * a + b, rest)
    | _, _ => none
  | _ => none

/-- Read `n` UTF-8 continuation bytes (each an escape `%HH` with
`0x80 ≤ HH < 0xC0`), accumulating the code-point value. -/
def contBytes : Nat → Nat → List Char → Option (Nat × List Char)
  | 0, v, rest => some (v, rest)
  | n + 1, v, rest =>
    match percentByte rest with
    | some (b, rest2) =>
      if 0x80 ≤ b ∧ b < 0xc0 then contBytes n (v * 64 + (b - 0x80)) rest2 else none
    | none => none

def utf8SeqLen (b : Nat) : Nat :=
  if b < 0x80 then 1
  else if b < 0xc0 then 0
  else if b < 0xe0 then 2
  else if b < 0xf0 then 3
  else if b < 0xf8 then 4
  else 0

def utf8LowBits (b : Nat) : Nat :=
  if b < 0xe0 then b - 0xc0 else if b < 0xf0 then b - 0xe0 else b - 0xf0

def utf8MinVal : Nat → Nat
  | 2 => 0x80
  | 3 => 0x800
  | 4 => 0x10000
  | _ => 0

/-- The ECMA-262 Decode loop: plain characters pass through; `%HH` escapes
are decoded as strict UTF-8 (no overlong forms, no surrogates, max
U+10FFFF), any violation raising `URIError`.  The fuel argument strictly
exceeds the input length, so it never runs out. -/
def decodeChars : Nat → List Char → Except JSError (List Char)
  | 0, _ => Except.error JSError.uriError
  | _ + 1, [] => Except.ok []
  | fuel + 1, c :: rest =>
    if c = '%' then
      match percentByte (c :: rest) with
      | none => Except.error JSError.uriError
      | some (b, rest2) =>
        if b < 0x80 then
          match decodeChars fuel rest2 with
          | Except.ok tail => Except.ok (Char.ofNat b :: tail)
          | Except.error e => Except.error e
        else
          if utf8SeqLen b < 2 then Except.error JSError.uriError
          else
            match contBytes (utf8SeqLen b - 1) (utf8LowBits b) rest2 with
            | none => Except.error JSError.uriError
            | some (v, rest3) =>
              if utf8MinVal (utf8SeqLen b) ≤ v ∧ v ≤ 0x10ffff
                  ∧ ¬ (0xd800 ≤ v ∧ v ≤ 0xdfff) then
                match decodeChars fuel rest3 with
                | Except.ok tail => Except.ok (Char.ofNat v :: tail)
                | Except.error e => Except.error e
              else Except.error JSError.uriError
    else
      match decodeChars fuel rest with
      | Except.ok tail => Except.ok (c :: tail)
      | Except.error e => Except.error e

def decodeURIComponent (s : List Char) : Except JSError (List Char) :=
  decodeChars (s.length + 1) s

/-- `Utils.getCurrentPageName`, translated statement by statement. -/
def getCurrentPageName (pathname : List Char) : Except JSError (List Char) :=
  let filename := (splitChar '/' pathname).getLastD []
  let stripped := replaceFirst (".html".toList) filename
  let pageName := if stripped = [] then "homepage".toList else stripped
  decodeURIComponent pageName

/-- Spec side: the last path segment — the suffix after the final slash. -/
def lastPathSegment (s : List Char) : List Char :=
  ((s.reverse).takeWhile (fun c => c != '/')).reverse

/-- Spec side: the index of the first occurrence of `pat`. -/
def firstOccIdx (pat : List Char) : List Char → Option Nat
  | [] => if pat.isPrefixOf ([] : List Char) then some 0 else none
  | c :: rest =>
    if pat.isPrefixOf (c :: rest) then some 0
    else (firstOccIdx pat rest).map (· + 1)

/-- Spec side: remove the first occurrence of `pat` from `s`. -/
def removeFirstOcc (pat s : List Char) : List Char :=
  match firstOccIdx pat s with
  | some i => s.take i ++ s.drop (i + pat.length)
  | none => s

/-- Spec side of the claim: the last path segment with the first `.html`
removed, defaulting to `homepage` when that removal yields the empty
string. -/
def specPageName (pathname : List Char) : List Char :=
  let seg := lastPathSegment pathname
  let stripped := removeFirstOcc (".html".toList) seg
  if stripped = [] then "homepage".toList else stripped

theorem splitChar_ne_nil (sep : Char) (s : List Char) : splitChar sep s ≠ [] := by
  cases s with
  | nil => simp [splitChar]
  | cons c rest =>
    simp only [splitChar]
    cases h : splitChar sep rest with
    | nil => simp
    | cons chunk chunks => by_cases hc : c = sep <;> simp [hc]

theorem splitChar_cons_sep (sep : Char) (rest : List Char) :
    splitChar sep (sep :: rest) = [] :: splitChar sep rest := by
  simp only [splitChar]
  cases h : splitChar sep rest with
  | nil => exact absurd h (splitChar_ne_nil sep rest)
  | cons chunk chunks => simp

theorem splitChar_cons_ne (sep c : Char) (rest : List Char) (hc : ¬ c = sep) :
    ∃ chunk chunks, splitChar sep rest = chunk :: chunks ∧
      splitChar sep (c :: rest) = (c :: chunk) :: chunks := by
  cases h : splitChar sep rest with
  | nil => exact absurd h (splitChar_ne_nil sep rest)
  | cons chunk chunks =>
    refine ⟨chunk, chunks, rfl, ?_⟩
    simp only [splitChar, h]
    simp [hc]

theorem takeWhile_append_stop (p : α → Bool) (l : List α) (x : α) (hx : p x = false) :
    (l ++ [x]).takeWhile p = l.takeWhile p := by
  induction l with
  | nil => simp [List.takeWhile_cons, hx]
  | cons a l ih =>
    by_cases ha : p a
    · simp [List.takeWhile_cons, ha, ih]
    · simp [List.takeWhile_cons, ha]

theorem takeWhile_append_all (p : α → Bool) (l m : List α) (h : ∀ y ∈ l, p y = true) :
    (l ++ m).takeWhile p = l ++ m.takeWhile p := by
  induction l with
  | nil => simp
  | cons a l ih =>
    have ha : p a = true := h a (by simp)
    simp [List.takeWhile_cons, ha, ih (fun y hy => h y (by simp [hy]))]

theorem takeWhile_append_mem_false (p : α → Bool) (l m : List α) (x : α)
    (hx : x ∈ l) (hpx : p x = false) :
    (l ++ m).takeWhile p = l.takeWhile p := by
  induction l with
  | nil => simp at hx
  | cons a l ih =>
    by_cases ha : p a
    · have hxl : x ∈ l := by
        rcases List.mem_cons.mp hx with rfl | hxl
        · rw [hpx] at ha
          exact absurd ha (by simp)
        · exact hxl
      simp [List.takeWhile_cons, ha, ih hxl]
    · simp [List.takeWhile_cons, ha]

theorem splitChar_eq_single (sep : Char) (s : List Char) (h : sep ∉ s) :
    splitChar sep s = [s] := by
  induction s with
  | nil => rfl
  | cons c rest ih =>
    have hc : ¬ (c = sep) := fun hce => h (List.mem_cons.mpr (Or.inl hce.symm))
    have hrest : sep ∉ rest := fun hr => h (List.mem_cons_of_mem c hr)
    simp only [splitChar, ih hrest]
    rw [if_neg hc]

theorem splitChar_length_ge_two (sep : Char) (s : List Char) (h : sep ∈ s) :
    2 ≤ (splitChar sep s).length := by
  induction s with
  | nil => simp at h
  | cons c rest ih =>
    by_cases hc : c = sep
    · subst hc
      rw [splitChar_cons_sep]
      have hpos : 0 < (splitChar c rest).length :=
        List.length_pos.mpr (splitChar_ne_nil c rest)
      simp
      omega
    · obtain ⟨chunk, chunks, hsp, hcons⟩ := splitChar_cons_ne sep c rest hc
      rw [hcons]
      have hrest : sep ∈ rest := by
        rcases List.mem_cons.mp h with h1 | h1
        · exact absurd h1.symm hc
        · exact h1
      have h2 := ih hrest
      rw [hsp] at h2
      simp at h2 ⊢
      omega

theorem getLastD_ne_nil (l : List α) (d1 d2 : α) (h : l ≠ []) :
    l.getLastD d1 = l.getLastD d2 := by
  cases l with
  | nil => exact absurd rfl h
  | cons x xs => rfl

theorem splitChar_getLastD (sep : Char) (s : List Char) :
    (splitChar sep s).getLastD [] = (s.reverse.takeWhile (fun c => c != sep)).reverse := by
  induction s with
  | nil => rfl
  | cons c rest ih =>
    rw [List.reverse_cons]
    by_cases hc : c = sep
    · subst hc
      rw [splitChar_cons_sep]
      rw [takeWhile_append_stop _ _ _ (by simp)]
      rw [← ih]
      cases h : splitChar c rest with
      | nil => exact absurd h (splitChar_ne_nil c rest)
      | cons chunk chunks => rfl
    · obtain ⟨chunk, chunks, hsp, hcons⟩ := splitChar_cons_ne sep c rest hc
      rw [hcons]
      have hpc : (c != sep) = true := by simp [hc]
      by_cases hrest : sep ∈ rest
      · have hlen := splitChar_length_ge_two sep rest hrest
        rw [hsp] at hlen
        cases chunks with
        | nil => simp at hlen
        | cons d ds =>
          have h1 : ((c :: chunk) :: d :: ds).getLastD ([] : List Char)
              = (chunk :: d :: ds).getLastD [] := by
            show (d :: ds).getLastD (c :: chunk) = (d :: ds).getLastD chunk
            exact getLastD_ne_nil _ _ _ (by simp)
          rw [h1, ← hsp, ih]
          rw [takeWhile_append_mem_false _ _ _ sep (by simpa using hrest) (by simp)]
      · have hsingle := splitChar_eq_single sep rest hrest
        rw [hsp] at hsingle
        obtain ⟨hchunk, hchunks⟩ : chunk = rest ∧ chunks = [] := by
          cases hsingle
          exact ⟨rfl, rfl⟩
        subst hchunk
        subst hchunks
        rw [takeWhile_append_all _ _ _ ?hall]
        case hall =>
          intro y hy
          have hys : ¬ (y = sep) := fun hys2 => hrest (by rw [← hys2]; simpa using hy)
          simp [hys]
        simp [List.takeWhile_cons, hpc]

theorem replaceFirst_eq_removeFirstOcc (pat : List Char) (s : List Char) :
    replaceFirst pat s = removeFirstOcc pat s := by
  induction s with
  | nil =>
    unfold removeFirstOcc firstOccIdx
    by_cases h : pat.isPrefixOf ([] : List Char)
    · rw [if_pos h]
      simp [replaceFirst]
    · rw [if_neg h]
      simp [replaceFirst]
  | cons c rest ih =>
    by_cases hpre : pat.isPrefixOf (c :: rest)
    · simp only [replaceFirst, if_pos hpre]
      unfold removeFirstOcc firstOccIdx
      rw [if_pos hpre]
      simp
    · simp only [replaceFirst, if_neg hpre]
      rw [ih]
      simp only [removeFirstOcc, firstOccIdx, if_neg hpre]
      cases hfo : firstOccIdx pat rest with
      | none => rfl
      | some i =>
        have harith : i + 1 + pat.length = (i + pat.length) + 1 := by omega
        simp [harith, List.take_succ_cons, List.drop_succ_cons]

/-- C10: `getCurrentPageName` returns the URL-decoded last path segment with
the first occurrence of `.html` removed, substituting `homepage` (before
decoding) exactly when that removal yields the empty string. -/
theorem getCurrentPageName_spec (p : List Char) :
    getCurrentPageName p = decodeURIComponent (specPageName p)
    ∧ (removeFirstOcc (".html".toList) (lastPathSegment p) = [] →
        getCurrentPageName p = Except.ok ("homepage".toList)) := by
  have hinner : (if replaceFirst (".html".toList) ((splitChar '/' p).getLastD []) = []
        then "homepage".toList
        else replaceFirst (".html".toList) ((splitChar '/' p).getLastD []))
      = specPageName p := by
    simp only [specPageName, lastPathSegment]
    rw [replaceFirst_eq_removeFirstOcc, splitChar_getLastD]
  constructor
  · simp only [getCurrentPageName]
    rw [hinner]
  · intro h
    simp only [getCurrentPageName]
    rw [hinner]
    simp only [specPageName]
    rw [if_pos h]
    rfl

/-- Witness for C10 at the pathname `/.html`: the last segment is exactly
`.html`, its removal is empty, and `homepage` is returned. -/
theorem getCurrentPageName_spec_witness :
    getCurrentPageName ("/.html".toList) = Except.ok ("homepage".toList) :=
  (getCurrentPageName_spec ("/.html".toList)).2 (by decide)
